import Mathlib

/-! Juju application resource: exposure deltas, read-back merge, update input.

A shallow embedding of the pure parts of `internal/provider/resource_application.go`:

* `computeExposeDeltas` (lines 343-392),
* the exposure value and the config map built by `resourceApplicationRead` (lines 259-278),
* the update input built by `resourceApplicationUpdate` (lines 292-329),
* the revision chosen by `resourceApplicationCreate` (lines 161-164).

Go values of type `interface{}` are the inductive type `Value`; a Go map with string keys is
its list of entries, a `nil` map is `none`; a run-time panic is `Except.error`.
-/

namespace Juju

/-- A run-time panic of the Go program. -/
inductive Panic where
  /-- A failed single-result type assertion `x.(T)`. -/
  | typeAssertion
  /-- A comparison of two interface values of one uncomparable dynamic type. -/
  | uncomparable
  deriving DecidableEq

/-- A Go value of static type `interface{}`. `map` holds a non-nil `map[string]interface{}`,
`list` a non-nil `[]interface{}`. -/
inductive Value where
  | nil
  | str (s : String)
  | int (n : Int)
  | bool (b : Bool)
  | list (xs : List Value)
  | map (m : List (String × Value))

/-- The entries of a non-nil Go map with string keys; the order of the list is the order in
which `range` visits the entries. -/
abbrev GoMap (V : Type) := List (String × V)

namespace GoMap

/-- The two-result index expression `v, found := m[k]`. -/
def get? {V : Type} (m : GoMap V) (k : String) : Option V :=
  match m with
  | [] => none
  | (k', v) :: rest => if k' = k then some v else get? rest k

/-- The assignment `m[k] = v`: the entry of `k` is replaced, or added when there was none. -/
def set {V : Type} (m : GoMap V) (k : String) (v : V) : GoMap V :=
  match m with
  | [] => [(k, v)]
  | (k', v') :: rest => if k' = k then (k, v) :: rest else (k', v') :: set rest k v

/-- The keys of the entries. -/
def keys {V : Type} (m : GoMap V) : List String := m.map Prod.fst

end GoMap

/-- The index expression `m[k]` on a possibly nil map: the zero value of the value type when
`m` is nil or has no entry for `k` (for `interface{}` the zero value is `nil`). -/
def index {V : Type} (zero : V) (m : Option (GoMap V)) (k : String) : V :=
  match m with
  | none => zero
  | some es => (GoMap.get? es k).getD zero

/-- The test `_, found := m[k]` on a possibly nil map. -/
def found {V : Type} (m : Option (GoMap V)) (k : String) : Bool :=
  match m with
  | none => false
  | some es => (GoMap.get? es k).isSome

/-- The number of entries `len(m)` of a possibly nil map. -/
def mapLen {V : Type} (m : Option (GoMap V)) : Nat :=
  match m with
  | none => 0
  | some es => es.length

/-- Go's `==` on two interface values: false for different dynamic types, the comparison
of the values for one comparable type, a panic for one uncomparable type (slice, map). -/
def Value.ifaceEq : Value → Value → Except Panic Bool
  | .nil, .nil => .ok true
  | .str a, .str b => .ok (decide (a = b))
  | .int a, .int b => .ok (decide (a = b))
  | .bool a, .bool b => .ok (decide (a = b))
  | .list _, .list _ => .error .uncomparable
  | .map _, .map _ => .error .uncomparable
  | _, _ => .ok false

mutual
/-- The function `reflect.DeepEqual` on two interface values. -/
def Value.deepEqual : Value → Value → Bool
  | .nil, .nil => true
  | .str a, .str b => decide (a = b)
  | .int a, .int b => decide (a = b)
  | .bool a, .bool b => decide (a = b)
  | .list xs, .list ys => deepEqualList xs ys
  | .map m, .map n => decide (m.length = n.length) && deepEqualEntries m n
  | _, _ => false
/-- Slices are deeply equal when they have the same length and deeply equal elements. -/
def deepEqualList : List Value → List Value → Bool
  | [], [] => true
  | x :: xs, y :: ys => Value.deepEqual x y && deepEqualList xs ys
  | _, _ => false
/-- Every entry of the first map has a deeply equal entry in the second. -/
def deepEqualEntries : List (String × Value) → List (String × Value) → Bool
  | [], _ => true
  | (k, v) :: rest, n =>
    (match GoMap.get? n k with
      | some w => Value.deepEqual v w
      | none => false) && deepEqualEntries rest n
end

/-- Lines 347-352 and 353-358: the block of an `expose` value, `nil` when the value is nil,
an empty list, or a list whose first element is nil. -/
def exposeBlock (expose : Value) : Except Panic (Option (GoMap Value)) :=
  match expose with
  | .nil => .ok none
  | .list [] => .ok none
  | .list (.nil :: _) => .ok none
  | .list (.map m :: _) => .ok (some m)
  | _ => .error .typeAssertion

/-- Lines 377-390: the loop over the entries of `new`. -/
def exposeLoop (old : Option (GoMap Value)) :
    List (String × Value) → GoMap Value → List String →
      Except Panic (GoMap Value × List String)
  | [], toExpose, toUnexpose => .ok (toExpose, toUnexpose)
  | (endpoint, v) :: rest, toExpose, toUnexpose =>
    if found old endpoint then
      match Value.ifaceEq v (index Value.nil old endpoint) with
      | .error e => .error e
      | .ok true => exposeLoop old rest toExpose toUnexpose
      | .ok false => exposeLoop old rest (toExpose.set endpoint v) (toUnexpose ++ [endpoint])
    else
      exposeLoop old rest (toExpose.set endpoint v) toUnexpose

/-- The function `computeExposeDeltas` (lines 343-392). The first component of the result is
the returned map (`none` for the `nil` of line 369), the second the returned slice. -/
def computeExposeDeltas (oldExpose newExpose : Value) (valueSet : Bool) :
    Except Panic (Option (GoMap Value) × List String) :=
  match exposeBlock oldExpose with
  | .error e => .error e
  | .ok old =>
    match exposeBlock newExpose with
    | .error e => .error e
    | .ok new =>
      let new := if new.isNone && valueSet then some [] else new
      match new with
      | none =>
        match index Value.nil old "endpoints" with
        | .str s => .ok (none, [] ++ [s])
        | _ => .error .typeAssertion
      | some entries =>
        let old := if old.isSome then some [] else old
        match exposeLoop old entries [] [] with
        | .error e => .error e
        | .ok (toExpose, toUnexpose) => .ok (some toExpose, toUnexpose)

/-- The variable `exposeValue` of `resourceApplicationRead` (lines 259-262): what is stored
under "expose", from the exposure `response.Expose` of the remote (`none` is the nil map). -/
def resourceApplicationRead.exposeValue (responseExpose : Option (GoMap Value)) :
    Option (List (GoMap Value)) :=
  match responseExpose with
  | none => none
  | some expose => some [expose]

/-- The map `newConfig` of `resourceApplicationRead` (lines 271-275): one entry
`newConfig[k] = response.Config[k]` for each key of the previous config. The declaration of
`response.Config` lies in `internal/juju`; its value type `V` and the zero value of that
type, which indexing yields for a key the map lacks, are parameters. -/
def resourceApplicationRead.newConfig {V : Type} (zero : V) (previousConfig : GoMap Value)
    (responseConfig : Option (GoMap V)) : GoMap V :=
  previousConfig.foldl
    (fun newConfig entry => newConfig.set entry.1 (index zero responseConfig entry.1)) []

/-- The revision `resourceApplicationCreate` sends (lines 161-164): the declared one, or
`-1` when `GetOk("charm.0.revision")` reports none. -/
def resourceApplicationCreate.revision (charmRevision : Int) (exist : Bool) : Int :=
  if !exist then -1 else charmRevision

/-- The two results of the SDK call `d.GetChange(key)`: the value in the prior state and
the value in the plan. `d.Get(key)` is the second one. -/
structure Change (α : Type) where
  old : α
  new : α

/-- What `resourceApplicationUpdate` reads from its `schema.ResourceData`. `exposeWasSet` is
the second result of `d.GetOk("expose")`. -/
structure ResourceData where
  name : String
  model : String
  units : Change Int
  trust : Change Bool
  expose : Change Value
  exposeWasSet : Bool
  revision : Change Int
  config : Change (GoMap Value)

/-- The SDK call `d.HasChange(key)` on a key of scalar type: the two values differ. -/
def Change.hasChange {α : Type} [DecidableEq α] (c : Change α) : Bool :=
  decide (c.old ≠ c.new)

/-- The SDK call `d.HasChange("expose")`: `!reflect.DeepEqual(old, new)`. -/
def ResourceData.exposeHasChange (d : ResourceData) : Bool :=
  !Value.deepEqual d.expose.old d.expose.new

/-- The SDK call `d.HasChange("config")`: `!reflect.DeepEqual(old, new)` on the two maps. -/
def ResourceData.configHasChange (d : ResourceData) : Bool :=
  !Value.deepEqual (Value.map d.config.old) (Value.map d.config.new)

/-- Modelled from the spec: the record `juju.UpdateApplicationInput`, declared in
`internal/juju` and absent from the sources at hand. It is the spec's `UpdateDelta`, each field
optional; the fields and their types are the ones `resourceApplicationUpdate` assigns. An unset
pointer, a nil map and a nil slice are `none`. -/
structure UpdateApplicationInput where
  ModelUUID : String
  ModelType : String
  AppName : String
  Units : Option Int := none
  Trust : Option Bool := none
  Expose : Option (GoMap Value) := none
  Unexpose : Option (List String) := none
  Revision : Option Int := none
  Config : Option (GoMap String) := none

/-- Lines 326-328: the loop `Config[k] = v.(string)` over the entries of the new config. -/
def configLoop : List (String × Value) → GoMap String → Except Panic (GoMap String)
  | [], config => .ok config
  | (k, .str s) :: rest, config => configLoop rest (config.set k s)
  | _ :: _, _ => .error .typeAssertion

/-- The update input `resourceApplicationUpdate` builds (lines 292-329) before it calls the
client; `modelUUID` and `modelType` are the two fields of the model the client resolved. -/
def resourceApplicationUpdate (modelUUID modelType : String) (d : ResourceData) :
    Except Panic UpdateApplicationInput :=
  let input : UpdateApplicationInput :=
    { ModelUUID := modelUUID, ModelType := modelType, AppName := d.name }
  let input := if d.units.hasChange then { input with Units := some d.units.new } else input
  let input := if d.trust.hasChange then { input with Trust := some d.trust.new } else input
  let exposed : Except Panic UpdateApplicationInput :=
    if d.exposeHasChange then
      match computeExposeDeltas d.expose.old d.expose.new d.exposeWasSet with
      | .error e => .error e
      | .ok (expose, unexpose) => .ok { input with Expose := expose, Unexpose := some unexpose }
    else .ok input
  match exposed with
  | .error e => .error e
  | .ok input =>
    let input :=
      if d.revision.hasChange then { input with Revision := some d.revision.new } else input
    if d.configHasChange then
      match configLoop d.config.new [] with
      | .error e => .error e
      | .ok config => .ok { input with Config := some config }
    else .ok input

/-- An exposure value that holds no block: nil, the empty list, or a list whose first element
is nil. -/
inductive NoBlock : Value → Prop
  | absent : NoBlock Value.nil
  | empty : NoBlock (Value.list [])
  | nilBlock (rest : List Value) : NoBlock (Value.list (Value.nil :: rest))

/-- A well-formed exposure value: one without a block, or a list whose first element is a
map. -/
inductive ExposeValue : Value → Prop
  | noBlock {v : Value} (h : NoBlock v) : ExposeValue v
  | block (m : GoMap Value) (rest : List Value) : ExposeValue (Value.list (Value.map m :: rest))

/-- A present new exposure together with its map: a list holding the map, or a value without
a block when `valueSet` is true, whose map is then the empty one. -/
inductive Present : Value → Bool → GoMap Value → Prop
  | block (m : GoMap Value) (rest : List Value) (valueSet : Bool) :
      Present (Value.list (Value.map m :: rest)) valueSet m
  | valueSet {v : Value} (h : NoBlock v) : Present v true []

/-- The inputs on which the exposure delta is computed: two well-formed exposure values, and
an old block with a string under "endpoints" when the new exposure is absent. -/
def ExposeDeltaDefined (oldExpose newExpose : Value) (valueSet : Bool) : Prop :=
  ExposeValue oldExpose ∧ ExposeValue newExpose ∧
    (NoBlock newExpose → valueSet = false →
      ∃ m rest e, oldExpose = Value.list (Value.map m :: rest) ∧
        GoMap.get? m "endpoints" = some (Value.str e))

/-- The assignments `toExpose[k] = v` for the entries of `new`, in the order of `range`. -/
def assignAll {V : Type} (entries : List (String × V)) (m : GoMap V) : GoMap V :=
  entries.foldl (fun acc entry => acc.set entry.1 entry.2) m

mutual
/-- Every map inside the value has distinct keys, as every Go map has. -/
def Value.distinctKeys : Value → Bool
  | .list xs => distinctKeysList xs
  | .map m => decide (GoMap.keys m).Nodup && distinctKeysEntries m
  | _ => true
/-- Every map inside the elements of the slice has distinct keys. -/
def distinctKeysList : List Value → Bool
  | [] => true
  | x :: xs => Value.distinctKeys x && distinctKeysList xs
/-- Every map inside the values of the entries has distinct keys. -/
def distinctKeysEntries : List (String × Value) → Bool
  | [] => true
  | (_, v) :: rest => Value.distinctKeys v && distinctKeysEntries rest
end

/-! ## Concrete inputs -/

/-- The block of an exposure of the endpoint list "web" open to every space and CIDR. -/
def blockWeb : GoMap Value :=
  [("endpoints", Value.str "web"), ("spaces", Value.str ""), ("cidrs", Value.str "")]

/-- The block of `blockWeb` with access narrowed to the space "dmz". -/
def blockWebDmz : GoMap Value :=
  [("endpoints", Value.str "web"), ("spaces", Value.str "dmz"), ("cidrs", Value.str "")]

/-- A block whose "endpoints" field lists two endpoints. -/
def blockTwo : GoMap Value :=
  [("endpoints", Value.str "a,b"), ("spaces", Value.str ""), ("cidrs", Value.str "")]

/-- An update in which only the unit count changes, from 5 to 7. -/
def unitsOnly : ResourceData :=
  { name := "wordpress", model := "dev",
    units := ⟨5, 7⟩, trust := ⟨false, false⟩,
    expose := ⟨Value.list [Value.map blockWeb], Value.list [Value.map blockWeb]⟩,
    exposeWasSet := true,
    revision := ⟨12, 12⟩,
    config := ⟨[("title", Value.str "blog")], [("title", Value.str "blog")]⟩ }

/-- An update in which every tracked field changes. -/
def allChanged : ResourceData :=
  { name := "wordpress", model := "dev",
    units := ⟨1, 3⟩, trust := ⟨false, true⟩,
    expose := ⟨Value.list [Value.map blockWeb], Value.list [Value.map blockWebDmz]⟩,
    exposeWasSet := true,
    revision := ⟨12, 14⟩,
    config := ⟨[("title", Value.str "blog")], [("title", Value.str "shop")]⟩ }

theorem GoMap.get?_set {V : Type} (m : GoMap V) (k k' : String) (v : V) :
    GoMap.get? (GoMap.set m k v) k' = if k = k' then some v else GoMap.get? m k' := by
  induction m with
  | nil => simp [GoMap.set, GoMap.get?]
  | cons e rest ih =>
    obtain ⟨k0, v0⟩ := e
    by_cases h0 : k0 = k
    · subst h0
      by_cases h1 : k0 = k' <;> simp [GoMap.set, GoMap.get?, h1]
    · by_cases h1 : k0 = k'
      · subst h1
        have h2 : ¬ k = k0 := fun h => h0 h.symm
        simp [GoMap.set, GoMap.get?, h0, h2]
      · simp [GoMap.set, GoMap.get?, h0, h1, ih]

theorem GoMap.get?_eq_none_of_not_mem {V : Type} (m : GoMap V) (k : String)
    (h : k ∉ GoMap.keys m) : GoMap.get? m k = none := by
  induction m with
  | nil => rfl
  | cons e rest ih =>
    obtain ⟨k0, v0⟩ := e
    simp only [GoMap.keys, List.map_cons, List.mem_cons, not_or] at h
    have h0 : ¬ k0 = k := fun h' => h.1 h'.symm
    simp only [GoMap.get?, h0, if_false]
    exact ih h.2

theorem GoMap.get?_isSome_iff {V : Type} (m : GoMap V) (k : String) :
    (GoMap.get? m k).isSome = true ↔ k ∈ GoMap.keys m := by
  induction m with
  | nil => simp [GoMap.get?, GoMap.keys]
  | cons e rest ih =>
    obtain ⟨k0, v0⟩ := e
    by_cases h0 : k0 = k
    · subst h0
      simp [GoMap.get?, GoMap.keys]
    · have h1 : ¬ k = k0 := fun h => h0 h.symm
      simp only [GoMap.get?, h0, if_false, ih, GoMap.keys, List.map_cons, List.mem_cons, h1,
        false_or]

theorem GoMap.keys_set {V : Type} (m : GoMap V) (k : String) (v : V) :
    GoMap.keys (GoMap.set m k v) = if k ∈ GoMap.keys m then GoMap.keys m
      else GoMap.keys m ++ [k] := by
  induction m with
  | nil => simp [GoMap.set, GoMap.keys]
  | cons e rest ih =>
    obtain ⟨k0, v0⟩ := e
    by_cases h0 : k0 = k
    · subst h0
      simp [GoMap.set, GoMap.keys]
    · have h1 : ¬ k = k0 := fun h => h0 h.symm
      simp only [GoMap.keys] at ih
      simp only [GoMap.set, h0, if_false, GoMap.keys, List.map_cons, List.mem_cons, h1,
        false_or, ih]
      split <;> simp

theorem GoMap.nodup_keys_set {V : Type} (m : GoMap V) (k : String) (v : V)
    (h : (GoMap.keys m).Nodup) : (GoMap.keys (GoMap.set m k v)).Nodup := by
  rw [GoMap.keys_set]
  split
  · exact h
  · rename_i hk
    rw [List.nodup_append]
    refine ⟨h, List.nodup_singleton k, ?_⟩
    intro a ha hb
    simp only [List.mem_singleton] at hb
    exact hk (hb ▸ ha)

theorem get?_assignAll {V : Type} (entries : List (String × V)) (m : GoMap V) (k : String)
    (h : (GoMap.keys entries).Nodup) :
    GoMap.get? (assignAll entries m) k =
      match GoMap.get? entries k with
      | some v => some v
      | none => GoMap.get? m k := by
  induction entries generalizing m with
  | nil => simp [assignAll, GoMap.get?]
  | cons e rest ih =>
    obtain ⟨k0, v0⟩ := e
    simp only [GoMap.keys, List.map_cons, List.nodup_cons] at h
    have ih' := ih (GoMap.set m k0 v0) h.2
    simp only [assignAll, List.foldl_cons] at ih' ⊢
    rw [ih', GoMap.get?_set]
    by_cases h0 : k0 = k
    · subst h0
      rw [GoMap.get?_eq_none_of_not_mem rest k0 h.1]
      simp [GoMap.get?]
    · simp [GoMap.get?, h0]

/-! ## The exposure delta -/

theorem exposeBlock_noBlock {v : Value} (h : NoBlock v) : exposeBlock v = .ok none := by
  cases h <;> rfl

theorem exposeBlock_block (m : GoMap Value) (rest : List Value) :
    exposeBlock (Value.list (Value.map m :: rest)) = .ok (some m) := rfl

theorem exposeBlock_exposeValue {v : Value} (h : ExposeValue v) :
    ∃ block, exposeBlock v = .ok block := by
  cases h with
  | noBlock h => exact ⟨none, exposeBlock_noBlock h⟩
  | block m rest => exact ⟨some m, rfl⟩

theorem exposeLoop_not_found (old : Option (GoMap Value)) (h : ∀ k, found old k = false)
    (entries : List (String × Value)) (toExpose : GoMap Value) (toUnexpose : List String) :
    exposeLoop old entries toExpose toUnexpose = .ok (assignAll entries toExpose, toUnexpose) := by
  induction entries generalizing toExpose with
  | nil => rfl
  | cons e rest ih =>
    obtain ⟨k0, v0⟩ := e
    simp only [exposeLoop, h k0, Bool.false_eq_true, if_false, ih]
    rfl

theorem computeExposeDeltas_present {oldExpose newExpose : Value} {valueSet : Bool}
    {new : GoMap Value} (hold : ExposeValue oldExpose) (hnew : Present newExpose valueSet new) :
    computeExposeDeltas oldExpose newExpose valueSet = .ok (some (assignAll new []), []) := by
  obtain ⟨old, hold⟩ := exposeBlock_exposeValue hold
  have hloop : ∀ entries : List (String × Value),
      exposeLoop (if old.isSome then some [] else old) entries [] []
        = .ok (assignAll entries [], []) := by
    intro entries
    apply exposeLoop_not_found
    intro k
    cases old <;> rfl
  cases hnew with
  | block m rest valueSet =>
    simp only [computeExposeDeltas, hold, exposeBlock_block]
    cases valueSet <;> simp [hloop]
  | valueSet h =>
    simp only [computeExposeDeltas, hold, exposeBlock_noBlock h]
    simp [hloop]

theorem computeExposeDeltas_absent {oldExpose newExpose : Value} {old : Option (GoMap Value)}
    (hold : exposeBlock oldExpose = .ok old) (hnew : NoBlock newExpose) :
    computeExposeDeltas oldExpose newExpose false =
      match index Value.nil old "endpoints" with
      | .str s => .ok (none, [s])
      | _ => .error .typeAssertion := by
  simp only [computeExposeDeltas, hold, exposeBlock_noBlock hnew]
  simp only [Option.isNone_none, Bool.and_false, Bool.false_eq_true, if_false]
  cases index Value.nil old "endpoints" <;> rfl

theorem computeExposeDeltas_defined {oldExpose newExpose : Value} {valueSet : Bool}
    (h : ExposeDeltaDefined oldExpose newExpose valueSet) :
    ∃ toExpose toUnexpose,
      computeExposeDeltas oldExpose newExpose valueSet = .ok (toExpose, toUnexpose) := by
  obtain ⟨hold, hnew, habs⟩ := h
  cases hnew with
  | block m rest => exact ⟨_, _, computeExposeDeltas_present hold (Present.block m rest valueSet)⟩
  | noBlock hn =>
    cases valueSet with
    | true => exact ⟨_, _, computeExposeDeltas_present hold (Present.valueSet hn)⟩
    | false =>
      obtain ⟨m, rest, e, rfl, he⟩ := habs hn rfl
      refine ⟨none, [e], ?_⟩
      rw [computeExposeDeltas_absent (exposeBlock_block m rest) hn]
      simp [index, he]

theorem nodup_keys_assignAll {V : Type} (entries : List (String × V)) (m : GoMap V)
    (h : (GoMap.keys m).Nodup) : (GoMap.keys (assignAll entries m)).Nodup := by
  induction entries generalizing m with
  | nil => exact h
  | cons e rest ih => exact ih _ (GoMap.nodup_keys_set m e.1 e.2 h)

theorem mem_keys_of_get?_eq {V : Type} (a b : GoMap V)
    (h : ∀ k, GoMap.get? a k = GoMap.get? b k) (k : String) :
    k ∈ GoMap.keys a ↔ k ∈ GoMap.keys b := by
  rw [← GoMap.get?_isSome_iff, ← GoMap.get?_isSome_iff, h k]

theorem get?_assignAll_nil {V : Type} (entries : List (String × V)) (k : String)
    (h : (GoMap.keys entries).Nodup) :
    GoMap.get? (assignAll entries []) k = GoMap.get? entries k := by
  rw [get?_assignAll entries [] k h]
  cases GoMap.get? entries k <;> rfl

theorem computeExposeDeltas_block_absent (m : GoMap Value) (rest : List Value) (e : String)
    (newExpose : Value) (hendpoints : GoMap.get? m "endpoints" = some (Value.str e))
    (hnew : NoBlock newExpose) :
    computeExposeDeltas (Value.list (Value.map m :: rest)) newExpose false = .ok (none, [e]) := by
  rw [computeExposeDeltas_absent (exposeBlock_block m rest) hnew]
  simp [index, hendpoints]

/-! ## The claims on `computeExposeDeltas` -/

/-- C1: for every well-formed old exposure and every present new exposure (a list holding a
map, or `valueSet = true`, whose map is then empty), `computeExposeDeltas` returns a `toExpose`
that has exactly the keys of the new map, each with the new map's value, whatever `old` is. -/
theorem computeExposeDeltas_toExpose_is_new (oldExpose newExpose : Value) (valueSet : Bool)
    (new : GoMap Value) (hold : ExposeValue oldExpose) (hnew : Present newExpose valueSet new)
    (hkeys : (GoMap.keys new).Nodup) :
    ∃ toExpose toUnexpose,
      computeExposeDeltas oldExpose newExpose valueSet = .ok (some toExpose, toUnexpose) ∧
      (∀ k, GoMap.get? toExpose k = GoMap.get? new k) ∧
      (∀ k, k ∈ GoMap.keys toExpose ↔ k ∈ GoMap.keys new) ∧
      (GoMap.keys toExpose).Nodup := by
  refine ⟨assignAll new [], [], computeExposeDeltas_present hold hnew, ?_, ?_, ?_⟩
  · exact fun k => get?_assignAll_nil new k hkeys
  · exact mem_keys_of_get?_eq _ _ (fun k => get?_assignAll_nil new k hkeys)
  · exact nodup_keys_assignAll new [] List.nodup_nil

/-- Witness of C1: the old exposure is the block of "web", the new one the block narrowed to
the space "dmz". -/
theorem computeExposeDeltas_toExpose_is_new_witness :
    ExposeValue (Value.list [Value.map blockWeb]) ∧
    Present (Value.list [Value.map blockWebDmz]) true blockWebDmz ∧
    (GoMap.keys blockWebDmz).Nodup ∧
    ∃ toExpose toUnexpose,
      computeExposeDeltas (Value.list [Value.map blockWeb]) (Value.list [Value.map blockWebDmz])
        true = .ok (some toExpose, toUnexpose) ∧
      (∀ k, GoMap.get? toExpose k = GoMap.get? blockWebDmz k) ∧
      (∀ k, k ∈ GoMap.keys toExpose ↔ k ∈ GoMap.keys blockWebDmz) ∧
      (GoMap.keys toExpose).Nodup :=
  ⟨ExposeValue.block blockWeb [], Present.block blockWebDmz [] true, by decide,
    computeExposeDeltas_toExpose_is_new _ _ true blockWebDmz (ExposeValue.block blockWeb [])
      (Present.block blockWebDmz [] true) (by decide)⟩

/-- C2, refuted as stated: no single list serves as `toUnexpose` for every old exposure when
the new exposure is absent; the olds with "endpoints" equal to "web" and to "a,b" already
get different lists. -/
theorem computeExposeDeltas_no_fixed_sentinel :
    ¬ ∃ sentinel : List String,
        ∀ old : GoMap Value, (∃ e, GoMap.get? old "endpoints" = some (Value.str e)) →
          ∃ toExpose, computeExposeDeltas (Value.list [Value.map old]) (Value.list []) false
              = .ok (toExpose, sentinel) ∧ mapLen toExpose = 0 := by
  rintro ⟨sentinel, h⟩
  obtain ⟨t1, h1, -⟩ := h blockWeb ⟨"web", rfl⟩
  obtain ⟨t2, h2, -⟩ := h blockTwo ⟨"a,b", rfl⟩
  have e1 : computeExposeDeltas (Value.list [Value.map blockWeb]) (Value.list []) false
      = .ok (none, ["web"]) := rfl
  have e2 : computeExposeDeltas (Value.list [Value.map blockTwo]) (Value.list []) false
      = .ok (none, ["a,b"]) := rfl
  rw [e1] at h1
  rw [e2] at h2
  injection h1 with h1
  injection h2 with h2
  have h3 : sentinel = ["web"] := (congrArg Prod.snd h1).symm
  have h4 : sentinel = ["a,b"] := (congrArg Prod.snd h2).symm
  rw [h3] at h4
  exact absurd h4 (by decide)

/-- C2, amended: for every old exposure whose block has a string `e` under "endpoints" and
every absent new exposure, `computeExposeDeltas` returns an empty `toExpose` and a `toUnexpose`
whose only element is `e`: the withdrawn list follows the old exposure. -/
theorem computeExposeDeltas_absent_withdraws_old_endpoints (m : GoMap Value) (rest : List Value)
    (e : String) (newExpose : Value)
    (hendpoints : GoMap.get? m "endpoints" = some (Value.str e)) (hnew : NoBlock newExpose) :
    ∃ toExpose toUnexpose,
      computeExposeDeltas (Value.list (Value.map m :: rest)) newExpose false
        = .ok (toExpose, toUnexpose) ∧
      mapLen toExpose = 0 ∧ toUnexpose.length = 1 ∧ toUnexpose.head? = some e :=
  ⟨none, [e], computeExposeDeltas_block_absent m rest e newExpose hendpoints hnew, rfl, rfl, rfl⟩

/-- Witness of the amended C2: the block of "web" is removed. -/
theorem computeExposeDeltas_absent_withdraws_old_endpoints_witness :
    GoMap.get? blockWeb "endpoints" = some (Value.str "web") ∧ NoBlock (Value.list []) ∧
    ∃ toExpose toUnexpose,
      computeExposeDeltas (Value.list (Value.map blockWeb :: [])) (Value.list []) false
        = .ok (toExpose, toUnexpose) ∧
      mapLen toExpose = 0 ∧ toUnexpose.length = 1 ∧ toUnexpose.head? = some "web" :=
  ⟨rfl, NoBlock.empty,
    computeExposeDeltas_absent_withdraws_old_endpoints blockWeb [] "web" (Value.list []) rfl
      NoBlock.empty⟩

/-- C5: for every well-formed old exposure and every present new exposure the `toUnexpose`
list returned by `computeExposeDeltas` is empty, also when old has keys that new lacks. -/
theorem computeExposeDeltas_present_withdraws_nothing (oldExpose newExpose : Value)
    (valueSet : Bool) (new : GoMap Value) (hold : ExposeValue oldExpose)
    (hnew : Present newExpose valueSet new) :
    ∃ toExpose, computeExposeDeltas oldExpose newExpose valueSet = .ok (some toExpose, []) :=
  ⟨assignAll new [], computeExposeDeltas_present hold hnew⟩

/-- Witness of C5: old holds the block of "web", new is a present block without any key. -/
theorem computeExposeDeltas_present_withdraws_nothing_witness :
    ExposeValue (Value.list [Value.map blockWeb]) ∧
    Present (Value.list [Value.nil]) true [] ∧
    ∃ toExpose, computeExposeDeltas (Value.list [Value.map blockWeb]) (Value.list [Value.nil])
      true = .ok (some toExpose, []) :=
  ⟨ExposeValue.block blockWeb [], Present.valueSet (NoBlock.nilBlock []),
    computeExposeDeltas_present_withdraws_nothing _ _ true [] (ExposeValue.block blockWeb [])
      (Present.valueSet (NoBlock.nilBlock []))⟩

/-- C6, the code at the failing inputs: with an absent new exposure and `valueSet = false`,
`computeExposeDeltas` panics on the type assertion of line 368 when old is a list holding nil,
and when old is nil. -/
theorem computeExposeDeltas_panics_without_old_block :
    computeExposeDeltas (Value.list [Value.nil]) (Value.list []) false
      = .error Panic.typeAssertion ∧
    computeExposeDeltas Value.nil Value.nil false = .error Panic.typeAssertion :=
  ⟨rfl, rfl⟩

/-- C7, the code at the failing input: old and new both hold a block, "spaces" changes from
"" to "dmz" and the other two keys keep their values; `toUnexpose` is empty and `toExpose`
holds all three keys of new. -/
theorem computeExposeDeltas_changed_key_not_withdrawn :
    computeExposeDeltas (Value.list [Value.map blockWeb]) (Value.list [Value.map blockWebDmz])
      true = .ok (some blockWebDmz, []) :=
  rfl

/-- C10: for every old exposure whose block has a string `e` under "endpoints" and every new
exposure without a block, with `valueSet = false`, `computeExposeDeltas` returns a nil
`toExpose` and the one-element `toUnexpose` holding the whole string `e`. -/
theorem computeExposeDeltas_absent_unsplit_endpoints (m : GoMap Value) (rest : List Value)
    (e : String) (newExpose : Value)
    (hendpoints : GoMap.get? m "endpoints" = some (Value.str e)) (hnew : NoBlock newExpose) :
    computeExposeDeltas (Value.list (Value.map m :: rest)) newExpose false = .ok (none, [e]) :=
  computeExposeDeltas_block_absent m rest e newExpose hendpoints hnew

/-- Witness of C10: the endpoints string "a,b" is withdrawn as the single element "a,b". -/
theorem computeExposeDeltas_absent_unsplit_endpoints_witness :
    GoMap.get? blockTwo "endpoints" = some (Value.str "a,b") ∧ NoBlock Value.nil ∧
    computeExposeDeltas (Value.list (Value.map blockTwo :: [])) Value.nil false
      = .ok (none, ["a,b"]) :=
  ⟨rfl, NoBlock.absent,
    computeExposeDeltas_absent_unsplit_endpoints blockTwo [] "a,b" Value.nil rfl NoBlock.absent⟩

/-! ## The claims on `resourceApplicationRead` -/

theorem get?_foldl_set_index {V : Type} (zero : V) (remote : Option (GoMap V))
    (tracked : GoMap Value) (acc : GoMap V) (k : String) :
    GoMap.get?
        (tracked.foldl (fun newConfig entry => newConfig.set entry.1 (index zero remote entry.1))
          acc) k
      = if k ∈ GoMap.keys tracked then some (index zero remote k) else GoMap.get? acc k := by
  induction tracked generalizing acc with
  | nil => simp [GoMap.keys]
  | cons e rest ih =>
    obtain ⟨k0, v0⟩ := e
    simp only [List.foldl_cons, ih, GoMap.get?_set, GoMap.keys, List.map_cons, List.mem_cons]
    simp only [GoMap.keys] at ih
    by_cases h0 : k0 = k
    · subst h0
      simp
    · have h1 : ¬ k = k0 := fun h => h0 h.symm
      simp only [h0, h1, if_false, false_or]

theorem nodup_keys_foldl_set_index {V : Type} (zero : V) (remote : Option (GoMap V))
    (tracked : GoMap Value) (acc : GoMap V) (h : (GoMap.keys acc).Nodup) :
    (GoMap.keys
      (tracked.foldl (fun newConfig entry => newConfig.set entry.1 (index zero remote entry.1))
        acc)).Nodup := by
  induction tracked generalizing acc with
  | nil => exact h
  | cons e rest ih => exact ih _ (GoMap.nodup_keys_set acc e.1 _ h)

/-- C3: the config map built by the read operation has exactly the keys of the tracked map,
each once; a key the remote reports maps to the remote's value and a key the remote lacks to
the zero value of the value type; an empty tracked map gives an empty result; with string
values, tracked {a:1, b:2} and remote {a:9, c:3} give {a:9, b:""}. -/
theorem resourceApplicationRead_newConfig_follows_tracked_keys {V : Type} (zero : V)
    (tracked : GoMap Value) (remote : Option (GoMap V)) (k : String) :
    (GoMap.get? (resourceApplicationRead.newConfig zero tracked remote) k =
      if k ∈ GoMap.keys tracked then
        some (match remote.bind (fun config => GoMap.get? config k) with
          | some v => v
          | none => zero)
      else none) ∧
    (k ∈ GoMap.keys (resourceApplicationRead.newConfig zero tracked remote)
      ↔ k ∈ GoMap.keys tracked) ∧
    (GoMap.keys (resourceApplicationRead.newConfig zero tracked remote)).Nodup ∧
    resourceApplicationRead.newConfig zero [] remote = [] ∧
    resourceApplicationRead.newConfig ""
        [("a", Value.str "1"), ("b", Value.str "2")] (some [("a", "9"), ("c", "3")])
      = [("a", "9"), ("b", "")] := by
  have hget : GoMap.get? (resourceApplicationRead.newConfig zero tracked remote) k =
      if k ∈ GoMap.keys tracked then
        some (match remote.bind (fun config => GoMap.get? config k) with
          | some v => v
          | none => zero)
      else none := by
    unfold resourceApplicationRead.newConfig
    rw [get?_foldl_set_index]
    have hindex : index zero remote k =
        (match remote.bind (fun config => GoMap.get? config k) with
          | some v => v
          | none => zero) := by
      cases remote with
      | none => rfl
      | some config =>
        simp only [index, Option.bind]
        cases GoMap.get? config k <;> rfl
    rw [hindex]
    rfl
  refine ⟨hget, ?_, ?_, rfl, rfl⟩
  · rw [← GoMap.get?_isSome_iff, hget]
    by_cases hk : k ∈ GoMap.keys tracked <;> simp [hk]
  · exact nodup_keys_foldl_set_index zero remote tracked [] List.nodup_nil

/-- C8: the exposure value the read operation stores is nil when the remote reports no
exposure, and the one-element list holding the remote's map when the remote reports one, the
empty map included; the two results differ for every non-nil remote map. -/
theorem resourceApplicationRead_exposeValue_absent_or_block (remote : GoMap Value) :
    resourceApplicationRead.exposeValue none = none ∧
    resourceApplicationRead.exposeValue (some remote) = some [remote] ∧
    resourceApplicationRead.exposeValue (some []) = some [[]] ∧
    resourceApplicationRead.exposeValue (some remote) ≠ resourceApplicationRead.exposeValue none :=
  ⟨rfl, rfl, rfl, fun h => Option.noConfusion h⟩

/-! ## The claims on `resourceApplicationUpdate` -/

theorem configLoop_strings (entries : List (String × Value)) (config : GoMap String)
    (h : ∀ entry ∈ entries, ∃ s, entry.2 = Value.str s) :
    ∃ result, configLoop entries config = .ok result := by
  induction entries generalizing config with
  | nil => exact ⟨config, rfl⟩
  | cons e rest ih =>
    obtain ⟨k, v⟩ := e
    obtain ⟨s, hs⟩ := h (k, v) (List.mem_cons_self _ _)
    simp only at hs
    subst hs
    simp only [configLoop]
    exact ih _ (fun entry hentry => h entry (List.mem_cons_of_mem _ hentry))

theorem resourceApplicationUpdate_eq (modelUUID modelType : String) (d : ResourceData)
    (deltas : Option (GoMap Value) × List String) (config : GoMap String)
    (hE : d.exposeHasChange = true →
      computeExposeDeltas d.expose.old d.expose.new d.exposeWasSet = .ok deltas)
    (hC : d.configHasChange = true → configLoop d.config.new [] = .ok config) :
    resourceApplicationUpdate modelUUID modelType d = .ok
      { ModelUUID := modelUUID, ModelType := modelType, AppName := d.name,
        Units := if d.units.hasChange then some d.units.new else none,
        Trust := if d.trust.hasChange then some d.trust.new else none,
        Expose := if d.exposeHasChange then deltas.1 else none,
        Unexpose := if d.exposeHasChange then some deltas.2 else none,
        Revision := if d.revision.hasChange then some d.revision.new else none,
        Config := if d.configHasChange then some config else none } := by
  unfold resourceApplicationUpdate
  cases he : d.exposeHasChange <;> cases hc : d.configHasChange <;>
    cases hu : d.units.hasChange <;> cases ht : d.trust.hasChange <;>
    cases hr : d.revision.hasChange <;>
    simp [he, hc, hE, hC]

theorem resourceApplicationUpdate_defined (modelUUID modelType : String) (d : ResourceData)
    (hExpose : d.exposeHasChange = true →
      ExposeDeltaDefined d.expose.old d.expose.new d.exposeWasSet)
    (hConfig : d.configHasChange = true → ∀ entry ∈ d.config.new, ∃ s, entry.2 = Value.str s) :
    ∃ deltas config,
      (d.exposeHasChange = true →
        computeExposeDeltas d.expose.old d.expose.new d.exposeWasSet = .ok deltas) ∧
      resourceApplicationUpdate modelUUID modelType d = .ok
        { ModelUUID := modelUUID, ModelType := modelType, AppName := d.name,
          Units := if d.units.hasChange then some d.units.new else none,
          Trust := if d.trust.hasChange then some d.trust.new else none,
          Expose := if d.exposeHasChange then deltas.1 else none,
          Unexpose := if d.exposeHasChange then some deltas.2 else none,
          Revision := if d.revision.hasChange then some d.revision.new else none,
          Config := if d.configHasChange then some config else none } := by
  have hE : ∃ deltas, d.exposeHasChange = true →
      computeExposeDeltas d.expose.old d.expose.new d.exposeWasSet = .ok deltas := by
    by_cases he : d.exposeHasChange = true
    · obtain ⟨toExpose, toUnexpose, h⟩ := computeExposeDeltas_defined (hExpose he)
      exact ⟨(toExpose, toUnexpose), fun _ => h⟩
    · exact ⟨(none, []), fun h => absurd h he⟩
  have hC : ∃ config, d.configHasChange = true → configLoop d.config.new [] = .ok config := by
    by_cases hc : d.configHasChange = true
    · obtain ⟨config, h⟩ := configLoop_strings d.config.new [] (hConfig hc)
      exact ⟨config, fun _ => h⟩
    · exact ⟨[], fun h => absurd h hc⟩
  obtain ⟨deltas, hE⟩ := hE
  obtain ⟨config, hC⟩ := hC
  exact ⟨deltas, config, hE, resourceApplicationUpdate_eq modelUUID modelType d deltas config hE hC⟩

theorem resourceApplicationUpdate_ok (modelUUID modelType : String) (d : ResourceData)
    (input : UpdateApplicationInput)
    (h : resourceApplicationUpdate modelUUID modelType d = .ok input) :
    ∃ deltas config,
      (d.exposeHasChange = true →
        computeExposeDeltas d.expose.old d.expose.new d.exposeWasSet = .ok deltas) ∧
      (d.configHasChange = true → configLoop d.config.new [] = .ok config) ∧
      input =
        { ModelUUID := modelUUID, ModelType := modelType, AppName := d.name,
          Units := if d.units.hasChange then some d.units.new else none,
          Trust := if d.trust.hasChange then some d.trust.new else none,
          Expose := if d.exposeHasChange then deltas.1 else none,
          Unexpose := if d.exposeHasChange then some deltas.2 else none,
          Revision := if d.revision.hasChange then some d.revision.new else none,
          Config := if d.configHasChange then some config else none } := by
  have hE : ∃ deltas, d.exposeHasChange = true →
      computeExposeDeltas d.expose.old d.expose.new d.exposeWasSet = .ok deltas := by
    by_cases he : d.exposeHasChange = true
    · cases hcd : computeExposeDeltas d.expose.old d.expose.new d.exposeWasSet with
      | error e =>
        exfalso
        simp [resourceApplicationUpdate, he, hcd] at h
      | ok deltas => exact ⟨deltas, fun _ => rfl⟩
    · exact ⟨(none, []), fun h' => absurd h' he⟩
  obtain ⟨deltas, hE⟩ := hE
  have hC : ∃ config, d.configHasChange = true → configLoop d.config.new [] = .ok config := by
    by_cases hc : d.configHasChange = true
    · cases hcl : configLoop d.config.new [] with
      | error e =>
        exfalso
        by_cases he : d.exposeHasChange = true
        · simp [resourceApplicationUpdate, he, hE he, hc, hcl] at h
        · simp [resourceApplicationUpdate, he, hc, hcl] at h
      | ok config => exact ⟨config, fun _ => rfl⟩
    · exact ⟨[], fun h' => absurd h' hc⟩
  obtain ⟨config, hC⟩ := hC
  refine ⟨deltas, config, hE, hC, ?_⟩
  have heq := resourceApplicationUpdate_eq modelUUID modelType d deltas config hE hC
  rw [h] at heq
  exact Except.ok.inj heq

theorem resourceApplicationUpdate_builds (modelUUID modelType : String) (d : ResourceData)
    (hExpose : d.exposeHasChange = true →
      ExposeDeltaDefined d.expose.old d.expose.new d.exposeWasSet)
    (hConfig : d.configHasChange = true → ∀ entry ∈ d.config.new, ∃ s, entry.2 = Value.str s) :
    ∃ input, resourceApplicationUpdate modelUUID modelType d = .ok input := by
  obtain ⟨deltas, config, -, h⟩ :=
    resourceApplicationUpdate_defined modelUUID modelType d hExpose hConfig
  exact ⟨_, h⟩

theorem GoMap.get?_of_mem {V : Type} (m : GoMap V) (k : String) (v : V)
    (hnodup : (GoMap.keys m).Nodup) (hmem : (k, v) ∈ m) : GoMap.get? m k = some v := by
  induction m with
  | nil => cases hmem
  | cons e rest ih =>
    obtain ⟨k0, v0⟩ := e
    simp only [GoMap.keys, List.map_cons, List.nodup_cons] at hnodup
    rcases List.mem_cons.mp hmem with heq | hrest
    · cases heq
      simp [GoMap.get?]
    · have hk : k ∈ List.map Prod.fst rest := List.mem_map.mpr ⟨(k, v), hrest, rfl⟩
      have h0 : ¬ k0 = k := fun h => hnodup.1 (h ▸ hk)
      simp only [GoMap.get?, h0, if_false]
      exact ih hnodup.2 hrest

mutual
theorem Value.deepEqual_self :
    ∀ v : Value, Value.distinctKeys v = true → Value.deepEqual v v = true
  | .nil, _ => rfl
  | .str s, _ => by simp [Value.deepEqual]
  | .int n, _ => by simp [Value.deepEqual]
  | .bool b, _ => by simp [Value.deepEqual]
  | .list xs, h => by
    simp only [Value.distinctKeys] at h
    simp only [Value.deepEqual]
    exact deepEqualList_self xs h
  | .map m, h => by
    simp only [Value.distinctKeys, Bool.and_eq_true, decide_eq_true_eq] at h
    simp only [Value.deepEqual, decide_True, Bool.true_and]
    exact deepEqualEntries_self m m h.1 h.2 (fun e he => he)
theorem deepEqualList_self :
    ∀ xs : List Value, distinctKeysList xs = true → deepEqualList xs xs = true
  | [], _ => rfl
  | x :: xs, h => by
    simp only [distinctKeysList, Bool.and_eq_true] at h
    simp only [deepEqualList, Bool.and_eq_true]
    exact ⟨Value.deepEqual_self x h.1, deepEqualList_self xs h.2⟩
theorem deepEqualEntries_self :
    ∀ (sub m : List (String × Value)), (GoMap.keys m).Nodup →
      distinctKeysEntries sub = true → (∀ e ∈ sub, e ∈ m) → deepEqualEntries sub m = true
  | [], _, _, _, _ => by simp [deepEqualEntries]
  | (k, v) :: rest, m, hm, h, hsub => by
    simp only [distinctKeysEntries, Bool.and_eq_true] at h
    have hget : GoMap.get? m k = some v :=
      GoMap.get?_of_mem m k v hm (hsub (k, v) (List.mem_cons_self _ _))
    simp only [deepEqualEntries, hget, Bool.and_eq_true]
    exact ⟨Value.deepEqual_self v h.1,
      deepEqualEntries_self rest m hm h.2 (fun e he => hsub e (List.mem_cons_of_mem _ he))⟩
end

theorem resourceApplicationUpdate_unchanged (modelUUID modelType : String) (d : ResourceData)
    (hunits : d.units.old = d.units.new) (htrust : d.trust.old = d.trust.new)
    (hexpose : d.expose.old = d.expose.new) (hexposeKeys : Value.distinctKeys d.expose.new = true)
    (hrevision : d.revision.old = d.revision.new) (hconfig : d.config.old = d.config.new)
    (hconfigKeys : Value.distinctKeys (Value.map d.config.new) = true) :
    resourceApplicationUpdate modelUUID modelType d = .ok
      { ModelUUID := modelUUID, ModelType := modelType, AppName := d.name,
        Units := none, Trust := none, Expose := none, Unexpose := none, Revision := none,
        Config := none } := by
  have he : d.exposeHasChange = false := by
    simp [ResourceData.exposeHasChange, hexpose, Value.deepEqual_self _ hexposeKeys]
  have hc : d.configHasChange = false := by
    simp [ResourceData.configHasChange, hconfig, Value.deepEqual_self _ hconfigKeys]
  have h := resourceApplicationUpdate_eq modelUUID modelType d (none, []) []
    (fun h => by rw [he] at h; cases h) (fun h => by rw [hc] at h; cases h)
  rw [h]
  simp [Change.hasChange, hunits, htrust, hrevision, he, hc]

/-- C4: for every old/new pair of units, trust, expose, charm revision and config, whenever
`resourceApplicationUpdate` builds its update input, Units, Trust and Revision are set exactly
when old and new differ and then hold the new value, Expose/Unexpose are set exactly when the
exposure values are not deeply equal (they are then the delta of `computeExposeDeltas`), and
Config is set exactly when the config maps are not deeply equal. The input is built on every
pair where a changed exposure has a computable delta and a changed config holds strings. When
every pair is equal (the maps having distinct keys) all five are left unset; when only units
changes, from 5 to 7, only Units is set. -/
theorem resourceApplicationUpdate_sets_changed_fields (modelUUID modelType : String)
    (d : ResourceData) :
    ((d.exposeHasChange = true → ExposeDeltaDefined d.expose.old d.expose.new d.exposeWasSet) →
      (d.configHasChange = true → ∀ entry ∈ d.config.new, ∃ s, entry.2 = Value.str s) →
      ∃ input, resourceApplicationUpdate modelUUID modelType d = .ok input) ∧
    (∀ input, resourceApplicationUpdate modelUUID modelType d = .ok input →
      input.Units = (if d.units.old ≠ d.units.new then some d.units.new else none) ∧
      input.Trust = (if d.trust.old ≠ d.trust.new then some d.trust.new else none) ∧
      input.Revision = (if d.revision.old ≠ d.revision.new then some d.revision.new else none) ∧
      ((input.Expose.isSome = true ∨ input.Unexpose.isSome = true)
        ↔ Value.deepEqual d.expose.old d.expose.new = false) ∧
      (input.Unexpose.isSome = true ↔ Value.deepEqual d.expose.old d.expose.new = false) ∧
      (Value.deepEqual d.expose.old d.expose.new = false →
        ∃ toUnexpose, input.Unexpose = some toUnexpose ∧
          computeExposeDeltas d.expose.old d.expose.new d.exposeWasSet
            = .ok (input.Expose, toUnexpose)) ∧
      (input.Config.isSome = true
        ↔ Value.deepEqual (Value.map d.config.old) (Value.map d.config.new) = false)) ∧
    (d.units.old = d.units.new → d.trust.old = d.trust.new → d.expose.old = d.expose.new →
      Value.distinctKeys d.expose.new = true → d.revision.old = d.revision.new →
      d.config.old = d.config.new → Value.distinctKeys (Value.map d.config.new) = true →
      resourceApplicationUpdate modelUUID modelType d = .ok
        { ModelUUID := modelUUID, ModelType := modelType, AppName := d.name,
          Units := none, Trust := none, Expose := none, Unexpose := none, Revision := none,
          Config := none }) ∧
    resourceApplicationUpdate modelUUID modelType unitsOnly = .ok
      { ModelUUID := modelUUID, ModelType := modelType, AppName := "wordpress",
        Units := some 7, Trust := none, Expose := none, Unexpose := none, Revision := none,
        Config := none } := by
  refine ⟨resourceApplicationUpdate_builds modelUUID modelType d, ?_,
    resourceApplicationUpdate_unchanged modelUUID modelType d, rfl⟩
  intro input h
  obtain ⟨deltas, config, hE, -, rfl⟩ := resourceApplicationUpdate_ok modelUUID modelType d input h
  refine ⟨?_, ?_, ?_, ?_, ?_, ?_, ?_⟩
  · simp [Change.hasChange]
  · simp [Change.hasChange]
  · simp [Change.hasChange]
  · cases he : Value.deepEqual d.expose.old d.expose.new <;>
      simp [ResourceData.exposeHasChange, he]
  · cases he : Value.deepEqual d.expose.old d.expose.new <;>
      simp [ResourceData.exposeHasChange, he]
  · intro he
    have he' : d.exposeHasChange = true := by simp [ResourceData.exposeHasChange, he]
    refine ⟨deltas.2, by simp [he'], ?_⟩
    simp only [he', if_true]
    exact hE he'
  · cases hc : Value.deepEqual (Value.map d.config.old) (Value.map d.config.new) <;>
      simp [ResourceData.configHasChange, hc]

/-- Witness of C4: the update in which every tracked field changes is built, with Units,
Trust, Revision, Unexpose and Config set. -/
theorem resourceApplicationUpdate_sets_changed_fields_witness :
    allChanged.exposeHasChange = true ∧
    ExposeDeltaDefined allChanged.expose.old allChanged.expose.new allChanged.exposeWasSet ∧
    allChanged.configHasChange = true ∧
    (∀ entry ∈ allChanged.config.new, ∃ s, entry.2 = Value.str s) ∧
    ∃ input, resourceApplicationUpdate "uuid" "iaas" allChanged = .ok input ∧
      input.Units = some 3 ∧ input.Trust = some true ∧ input.Revision = some 14 ∧
      input.Unexpose.isSome = true ∧ input.Config.isSome = true := by
  have hE : ExposeDeltaDefined allChanged.expose.old allChanged.expose.new
      allChanged.exposeWasSet :=
    ⟨ExposeValue.block blockWeb [], ExposeValue.block blockWebDmz [], fun h => nomatch h⟩
  have hC : ∀ entry ∈ allChanged.config.new, ∃ s, entry.2 = Value.str s := by
    intro entry hentry
    simp only [allChanged, List.mem_singleton] at hentry
    exact ⟨"shop", by rw [hentry]⟩
  obtain ⟨hbuilt, hfields, -, -⟩ :=
    resourceApplicationUpdate_sets_changed_fields "uuid" "iaas" allChanged
  obtain ⟨input, h⟩ := hbuilt (fun _ => hE) (fun _ => hC)
  obtain ⟨hu, ht, hr, -, hx, -, hc⟩ := hfields input h
  exact ⟨rfl, hE, rfl, hC, input, h, hu, ht, hr, hx.mpr rfl, hc.mpr rfl⟩

end Juju
